import Mathlib

/-!
Verification of the nanosat power-supply simulation (src/powersupply.py).

The script is embedded shallowly over exact rationals: the load-model
conditions (lines 104-119) become per-angle functions of the orbital angle,
and the battery loop (lines 138-167) becomes a recursion over the list of
per-step (solar power, total load) pairs, threading the running charge.
The battery constants of lines 126-132 are gathered in a configuration
record, since the specification treats them as configuration inputs; the
script instance is `scriptCfg`.  Python float percent on the nonnegative
operands used here is the flooring remainder, embedded as `pymod`.
-/

namespace PowerSupply

/-- Flooring remainder on rationals: `a - b * ⌊a / b⌋`.  This is what the
Python `%` of the source computes on its (finite, positive-divisor)
operands. -/
def pymod (a b : ℚ) : ℚ := a - b * ⌊a / b⌋

-- --- Solar Power constants (lines 25-40) ---

/-- Orbital period in minutes (line 25). -/
def T : ℚ := 90

/-- Angular step of the sweep in degrees (line 39). -/
def step : ℚ := 1 / 60

/-- Maximum solar cell power in mW (line 31). -/
def Pmax : ℚ := 220

/-- Line 54-56: convert an angle in degrees to minutes in orbit. -/
def deg2time (angle : ℚ) : ℚ := 90 / 360 * angle

/-- Line 59-61: convert minutes in orbit to an angle in degrees. -/
def time2deg (time : ℚ) : ℚ := time / 90 * 360

-- --- Power Consumption (lines 66-122) ---

def gps_idle : ℚ := 50
def mcu_idle : ℚ := 10
def imu_idle : ℚ := 6
def rxtx_idle : ℚ := 9 / 10
def cam_idle : ℚ := 0
def ac_idle : ℚ := 0
def env_idle : ℚ := 1

/-- Total idle power consumption (line 74). -/
def Pidle : ℚ :=
  gps_idle + mcu_idle + imu_idle + rxtx_idle + cam_idle + ac_idle + env_idle

def P_rxtx : ℚ := 200 - rxtx_idle
def T_rxtx : ℚ := 15
def start_rxtx : ℚ := 60
def end_rxtx : ℚ := start_rxtx + time2deg T_rxtx
def f_rxtx : ℚ := 360

def P_cam : ℚ := 60 - cam_idle
def T_cam : ℚ := 3 / 100
def start_cam : ℚ := 0
def end_cam : ℚ := 180
def f_cam : ℚ := 5

def P_ac : ℚ := 66 - ac_idle
def T_ac : ℚ := 1
def start_ac : ℚ := 0
def f_ac : ℚ := 10

def rxtx_active : Bool := true
def cam_active : Bool := true
def AC_active : Bool := true

/-- The camera condition of line 108. -/
def camCond (angle : ℚ) : Prop :=
  pymod angle f_cam ≥ start_cam ∧ pymod angle f_cam < time2deg T_cam
    ∧ angle ≥ start_cam ∧ angle < end_cam

/-- The transceiver condition of line 113. -/
def rxtxCond (angle : ℚ) : Prop :=
  pymod angle f_rxtx ≥ start_rxtx ∧ pymod angle f_rxtx < end_rxtx
    ∧ angle ≥ start_rxtx ∧ angle < end_rxtx

/-- The attitude-control condition of line 118. -/
def acCond (angle : ℚ) : Prop :=
  pymod angle f_ac ≥ start_ac ∧ pymod angle f_ac < time2deg T_ac

instance (angle : ℚ) : Decidable (camCond angle) := by
  unfold camCond; infer_instance

instance (angle : ℚ) : Decidable (rxtxCond angle) := by
  unfold rxtxCond; infer_instance

instance (angle : ℚ) : Decidable (acCond angle) := by
  unfold acCond; infer_instance

/-- The periodic consumption accumulated at one angle by the loop of
lines 104-119 (each subsystem adds its peak draw when its enabled flag is
set and its window condition holds, mirroring the nested ifs). -/
def Pactive (angle : ℚ) : ℚ :=
  (if cam_active then if camCond angle then P_cam else 0 else 0)
    + (if rxtx_active then if rxtxCond angle then P_rxtx else 0 else 0)
    + (if AC_active then if acCond angle then P_ac else 0 else 0)

/-- Total power consumption at one angle (line 122). -/
def Ptotal (angle : ℚ) : ℚ := Pidle + Pactive angle

-- --- Battery Charging Cycle (lines 126-167) ---

def Cmax : ℚ := 200
def Cmaxmin : ℚ := Cmax * 60
def charging_speed : ℚ := 5
def I_charge : ℚ := Cmax / charging_speed
def U_bat : ℚ := 37 / 10
def Pcharge : ℚ := U_bat * I_charge

/-- Initial battery charge, line 132 (the script assigns it to Cnew). -/
def Cnew_init : ℚ := 1 / 2 * Cmaxmin

/-- The battery constants the loop of lines 138-167 reads.  The script fixes
them at module level (lines 126-132 and 25, 39); the specification lists them
as configuration inputs, so the loop is stated over any values and the
script values form `scriptCfg`. -/
structure Config where
  Cmaxmin : ℚ
  I_charge : ℚ
  U_bat : ℚ
  T : ℚ
  step : ℚ

/-- Charging power, line 131. -/
def Config.Pcharge (cfg : Config) : ℚ := cfg.U_bat * cfg.I_charge

/-- The battery constants of the script itself. -/
def scriptCfg : Config := ⟨Cmaxmin, I_charge, U_bat, T, step⟩

/-- What one iteration of the battery loop produces: the updated running
charge `Cnew`, the values appended to `I` and `C`, and the value appended to
`level` when one is appended at all (the saturated branch of lines 140-142
appends to `I` and `C` only, so `levelOut` is `none` there). -/
structure StepOut where
  Cnew : ℚ
  Iout : ℚ
  Cout : ℚ
  levelOut : Option ℚ

/-- One iteration of the loop of lines 138-167, for running charge `c` and
this step's solar power `psolar` and total load `ptotal`.  Branches in
source order: saturated (lines 140-142, which do not write `Cnew`), surplus
charging at full or reduced rate (lines 145-158), deficit (lines 160-167). -/
def simStep (cfg : Config) (psolar ptotal c : ℚ) : StepOut :=
  if c > cfg.Cmaxmin then
    ⟨c, 0, cfg.Cmaxmin, none⟩
  else if psolar > ptotal + cfg.Pcharge then
    let Pavail := psolar - ptotal
    if Pavail / cfg.U_bat ≥ cfg.I_charge then
      let c' := c + cfg.I_charge * (cfg.T / 360 * cfg.step)
      ⟨c', cfg.I_charge, c', some (c' / cfg.Cmaxmin * 100)⟩
    else
      let Ireduced := Pavail / cfg.U_bat
      let c' := c + Ireduced * (cfg.T / 360 * cfg.step)
      ⟨c', Ireduced, c', some (c' / cfg.Cmaxmin * 100)⟩
  else
    let Pleft := ptotal - psolar
    let Idischarge := Pleft / cfg.U_bat
    let c' := c - Idischarge * (cfg.T / 360 * cfg.step)
    ⟨c', -Idischarge, c', some (c' / cfg.Cmaxmin * 100)⟩

/-- The three output series of the loop: `C` (charge, mAmin), `I` (current,
mA) and `level` (percent), lines 134-136. -/
structure Series where
  C : List ℚ
  I : List ℚ
  level : List ℚ

/-- The whole battery loop of lines 138-167: one `simStep` per element of
`inputs`, the per-step (solar power, total load) pairs, threading the
running charge `c` and collecting the appended values in order. -/
def simRun (cfg : Config) (c : ℚ) : List (ℚ × ℚ) → Series
  | [] => ⟨[], [], []⟩
  | (ps, pt) :: rest =>
    let s := simStep cfg ps pt c
    let r := simRun cfg s.Cnew rest
    ⟨s.Cout :: r.C, s.Iout :: r.I,
      match s.levelOut with
      | none => r.level
      | some l => l :: r.level⟩

-- --- Helper lemmas ---

lemma pymod_eq_mul_fract (a b : ℚ) (hb : b ≠ 0) :
    pymod a b = b * Int.fract (a / b) := by
  have hba : b * (a / b) = a := by field_simp
  unfold pymod Int.fract
  rw [mul_sub, hba]

lemma pymod_nonneg (a b : ℚ) (hb : 0 < b) : 0 ≤ pymod a b := by
  rw [pymod_eq_mul_fract a b hb.ne']
  exact mul_nonneg hb.le (Int.fract_nonneg _)

lemma pymod_lt (a b : ℚ) (hb : 0 < b) : pymod a b < b := by
  rw [pymod_eq_mul_fract a b hb.ne']
  calc b * Int.fract (a / b) < b * 1 :=
        mul_lt_mul_of_pos_left (Int.fract_lt_one _) hb
    _ = b := mul_one b

lemma pymod_add_right (a b : ℚ) (hb : b ≠ 0) :
    pymod (a + b) b = pymod a b := by
  unfold pymod
  have hdiv : (a + b) / b = a / b + 1 := by field_simp
  rw [hdiv, Int.floor_add_one]
  push_cast
  ring

/-- Evaluate `pymod` at concrete arguments: when `n * b ≤ a < (n + 1) * b`,
the flooring remainder is `a - b * n`. -/
lemma pymod_eq_of (a b : ℚ) (n : ℤ) (hb : 0 < b) (h1 : (n : ℚ) * b ≤ a)
    (h2 : a < ((n : ℚ) + 1) * b) : pymod a b = a - b * n := by
  unfold pymod
  have hfl : ⌊a / b⌋ = n := by
    rw [Int.floor_eq_iff]
    constructor
    · rw [le_div_iff₀ hb]; exact h1
    · rw [div_lt_iff₀ hb]; exact h2
  rw [hfl]

-- --- Claim theorems ---

/-- Claim C7: for every enabled periodic subsystem, an angle exactly equal
to the deactivation (end) angle is excluded: the camera at its end angle
180 and the transceiver at its end angle 120 are inactive, the camera is
inactive at the end of its duty sub-window, the attitude-control load is
inactive at a phase exactly equal to its duty-window end, and the peak
draws are absent from the total load at the respective end angles; the
lower bounds are inclusive (active at the start angle), so the comparisons
are half-open. -/
theorem end_angle_exclusive :
    ¬ camCond end_cam ∧ ¬ rxtxCond end_rxtx ∧ ¬ camCond (time2deg T_cam)
      ∧ (∀ angle : ℚ, pymod angle f_ac = time2deg T_ac → ¬ acCond angle)
      ∧ Ptotal end_cam = Pidle + P_ac ∧ Ptotal end_rxtx = Pidle + P_cam + P_ac
      ∧ camCond start_cam ∧ rxtxCond start_rxtx := by
  have hcam180 : ¬ camCond 180 := by
    have h : pymod 180 f_cam = 0 := by
      rw [f_cam, pymod_eq_of 180 5 36 (by norm_num) (by norm_num) (by norm_num)]
      norm_num
    norm_num [camCond, h, start_cam, time2deg, T_cam, end_cam]
  have hrx120 : ¬ rxtxCond 120 := by
    have h : pymod 120 f_rxtx = 120 := by
      rw [f_rxtx, pymod_eq_of 120 360 0 (by norm_num) (by norm_num) (by norm_num)]
      norm_num
    norm_num [rxtxCond, h, start_rxtx, end_rxtx, time2deg, T_rxtx]
  have hendrx : end_rxtx = 120 := by norm_num [end_rxtx, start_rxtx, time2deg, T_rxtx]
  have hendcam : end_cam = (180 : ℚ) := rfl
  refine ⟨hendcam ▸ hcam180, hendrx ▸ hrx120, ?_, ?_, ?_, ?_, ?_, ?_⟩
  · have ht : time2deg T_cam = 3 / 25 := by norm_num [time2deg, T_cam]
    have h : pymod (3 / 25) f_cam = 3 / 25 := by
      rw [f_cam, pymod_eq_of (3 / 25) 5 0 (by norm_num) (by norm_num) (by norm_num)]
      norm_num
    norm_num [camCond, ht, h, start_cam, end_cam]
  · intro angle h
    norm_num [acCond, h, time2deg, T_ac]
  · have hrx : ¬ rxtxCond 180 := by
      have h : pymod 180 f_rxtx = 180 := by
        rw [f_rxtx, pymod_eq_of 180 360 0 (by norm_num) (by norm_num) (by norm_num)]
        norm_num
      norm_num [rxtxCond, h, start_rxtx, end_rxtx, time2deg, T_rxtx]
    have hac : acCond 180 := by
      have h : pymod 180 f_ac = 0 := by
        rw [f_ac, pymod_eq_of 180 10 18 (by norm_num) (by norm_num) (by norm_num)]
        norm_num
      norm_num [acCond, h, start_ac, time2deg, T_ac]
    rw [Ptotal, hendcam]
    simp [Pactive, cam_active, rxtx_active, AC_active, hcam180, hrx, hac]
  · have hcam : camCond 120 := by
      have h : pymod 120 f_cam = 0 := by
        rw [f_cam, pymod_eq_of 120 5 24 (by norm_num) (by norm_num) (by norm_num)]
        norm_num
      norm_num [camCond, h, start_cam, time2deg, T_cam, end_cam]
    have hac : acCond 120 := by
      have h : pymod 120 f_ac = 0 := by
        rw [f_ac, pymod_eq_of 120 10 12 (by norm_num) (by norm_num) (by norm_num)]
        norm_num
      norm_num [acCond, h, start_ac, time2deg, T_ac]
    rw [Ptotal, hendrx]
    simp [Pactive, cam_active, rxtx_active, AC_active, hcam, hrx120, hac, P_cam,
      cam_idle, P_ac, ac_idle]
    ring
  · have h : pymod 0 f_cam = 0 := by
      rw [f_cam, pymod_eq_of 0 5 0 (by norm_num) (by norm_num) (by norm_num)]
      norm_num
    norm_num [camCond, h, start_cam, time2deg, T_cam, end_cam]
  · have h : pymod 60 f_rxtx = 60 := by
      rw [f_rxtx, pymod_eq_of 60 360 0 (by norm_num) (by norm_num) (by norm_num)]
      norm_num
    norm_num [rxtxCond, h, start_rxtx, end_rxtx, time2deg, T_rxtx]

/-- Claim C9: the attitude-control subsystem is enabled, its repeat period
is 10 degrees and the angular width of its one-minute operation is 4
degrees; its condition holds exactly when the phase of the angle modulo the
repeat period lies in the duty window, that is strictly below 4 (the lower
bound 0 holds for every angle), with no absolute start or end window; the
condition is invariant under shifting the angle by one repeat period, so it
recurs across the whole orbit. -/
theorem ac_phase_gating (angle : ℚ) :
    AC_active = true ∧ f_ac = 10 ∧ time2deg T_ac = 4
      ∧ (acCond angle ↔ pymod angle f_ac < time2deg T_ac)
      ∧ (acCond (angle + f_ac) ↔ acCond angle) := by
  refine ⟨rfl, rfl, by norm_num [time2deg, T_ac], ?_, ?_⟩
  · have h0 : 0 ≤ pymod angle f_ac := pymod_nonneg angle f_ac (by norm_num [f_ac])
    norm_num [acCond, start_ac, h0]
  · unfold acCond
    rw [pymod_add_right angle f_ac (by norm_num [f_ac])]

/-- Claim C1: at a step taken in the saturated branch the loop appends to
`I` and to `C` but not to `level`, so the three series do not all have one
entry per angle step: here one saturated step (running charge 12001 above
the capacity 12000) yields `I` and `C` of length one and `level` of length
zero. -/
theorem saturated_branch_omits_level_entry :
    (simRun scriptCfg 12001 [(0, 100)]).I.length = 1
      ∧ (simRun scriptCfg 12001 [(0, 100)]).C.length = 1
      ∧ (simRun scriptCfg 12001 [(0, 100)]).level.length = 0 := by
  norm_num [simRun, simStep, scriptCfg, Config.Pcharge, Cmaxmin, Cmax, I_charge,
    charging_speed, U_bat, T, step]

/-- Claim C2, counterexample: at a step whose running charge equals the
capacity exactly (charge has reached capacity), the loop does not clamp and
does not record zero current; it takes the deficit branch and records the
current minus ten and a charge below capacity.  And once the running charge
is strictly above capacity, the recorded current stays zero and the
recorded charge stays at capacity even at later steps whose load (37)
exceeds the supply (0): discharging does not resume. -/
theorem saturation_claim_cex :
    (simRun scriptCfg 12000 [(0, 37)]).I = [-10]
      ∧ (simRun scriptCfg 12000 [(0, 37)]).C = [12000 - 1 / 24]
      ∧ (simRun scriptCfg 12001 [(0, 37), (0, 37)]).I = [0, 0]
      ∧ (simRun scriptCfg 12001 [(0, 37), (0, 37)]).C = [12000, 12000] := by
  norm_num [simRun, simStep, scriptCfg, Config.Pcharge, Cmaxmin, Cmax, I_charge,
    charging_speed, U_bat, T, step]

/-- Claim C2, amended: for every step at which the running charge strictly
exceeds the capacity, the loop records capacity as the charge and zero as
the current, and it leaves the running charge unchanged, so it stays in the
saturated branch for all subsequent steps regardless of load and supply
(discharging never resumes) and `level` receives no entry at all. -/
theorem saturation_persists_forever (cfg : Config) (c : ℚ)
    (inputs : List (ℚ × ℚ)) (hc : c > cfg.Cmaxmin) :
    (simRun cfg c inputs).I = List.replicate inputs.length 0
      ∧ (simRun cfg c inputs).C = List.replicate inputs.length cfg.Cmaxmin
      ∧ (simRun cfg c inputs).level = [] := by
  induction inputs with
  | nil => simp [simRun]
  | cons hd tl ih =>
    obtain ⟨ps, pt⟩ := hd
    have hstep : simStep cfg ps pt c = ⟨c, 0, cfg.Cmaxmin, none⟩ := by
      unfold simStep
      rw [if_pos hc]
    simp only [simRun, hstep, List.length_cons, List.replicate_succ]
    exact ⟨by rw [ih.1], by rw [ih.2.1], ih.2.2⟩

/-- Witness for the amended claim C2 at a concrete input. -/
theorem saturation_persists_forever_witness :
    (simRun scriptCfg 12001 [(500, 0)]).I = List.replicate 1 0
      ∧ (simRun scriptCfg 12001 [(500, 0)]).C = List.replicate 1 scriptCfg.Cmaxmin
      ∧ (simRun scriptCfg 12001 [(500, 0)]).level = [] :=
  saturation_persists_forever scriptCfg 12001 [(500, 0)]
    (by norm_num [scriptCfg, Cmaxmin, Cmax])

/-- Claim C10: the loop is a pure function of the configuration, the
initial charge and the per-step input series, so two runs on identical
inputs produce identical output series. -/
theorem sim_deterministic (cfg cfg' : Config) (c c' : ℚ)
    (inputs inputs' : List (ℚ × ℚ)) (h1 : cfg = cfg') (h2 : c = c')
    (h3 : inputs = inputs') :
    simRun cfg c inputs = simRun cfg' c' inputs' := by
  rw [h1, h2, h3]

/-- Witness for claim C10 at a concrete input. -/
theorem sim_deterministic_witness :
    simRun scriptCfg Cnew_init [(220, 100)]
      = simRun scriptCfg Cnew_init [(220, 100)] :=
  sim_deterministic scriptCfg scriptCfg Cnew_init Cnew_init [(220, 100)]
    [(220, 100)] rfl rfl rfl

/-- Claim C4, counterexample: a non-saturated step failing the surplus
condition need not record a negative current: with solar 100 and load 60
(solar covers the load but exceeds it by less than the charging power 148)
the branch of lines 160-167 records the positive current 400 / 37. -/
theorem deficit_branch_sign_cex :
    (simRun scriptCfg 6000 [(100, 60)]).I = [400 / 37]
      ∧ (0 : ℚ) < 400 / 37 := by
  constructor
  · norm_num [simRun, simStep, scriptCfg, Config.Pcharge, Cmaxmin, Cmax, I_charge,
      charging_speed, U_bat, T, step]
  · norm_num

/-- Claim C4, amended: every non-saturated step failing the surplus
condition computes the shortfall power (load minus solar), converts it to a
current via the battery voltage, decrements the charge by that current
times the step duration, and records the negated discharge current, which
is negative exactly when the load strictly exceeds the solar power (it is
zero at equality and positive when solar exceeds load by no more than the
charging power). -/
theorem deficit_branch_update (cfg : Config) (ps pt c : ℚ)
    (hc : ¬ c > cfg.Cmaxmin) (hs : ¬ ps > pt + cfg.Pcharge) :
    (simStep cfg ps pt c).Cnew
        = c - (pt - ps) / cfg.U_bat * (cfg.T / 360 * cfg.step)
      ∧ (simStep cfg ps pt c).Iout = -((pt - ps) / cfg.U_bat)
      ∧ (0 < cfg.U_bat → ((simStep cfg ps pt c).Iout < 0 ↔ ps < pt)) := by
  have hstep : simStep cfg ps pt c
      = ⟨c - (pt - ps) / cfg.U_bat * (cfg.T / 360 * cfg.step),
         -((pt - ps) / cfg.U_bat),
         c - (pt - ps) / cfg.U_bat * (cfg.T / 360 * cfg.step),
         some ((c - (pt - ps) / cfg.U_bat * (cfg.T / 360 * cfg.step))
            / cfg.Cmaxmin * 100)⟩ := by
    simp only [simStep]
    rw [if_neg hc, if_neg hs]
  rw [hstep]
  refine ⟨rfl, rfl, ?_⟩
  intro hU
  show -((pt - ps) / cfg.U_bat) < 0 ↔ ps < pt
  rw [neg_lt_zero, lt_div_iff₀ hU, zero_mul, sub_pos]

/-- Witness for the amended claim C4 at a concrete input. -/
theorem deficit_branch_update_witness :
    (simStep scriptCfg 10 90 7000).Cnew
        = 7000 - (90 - 10) / scriptCfg.U_bat * (scriptCfg.T / 360 * scriptCfg.step)
      ∧ (simStep scriptCfg 10 90 7000).Iout = -((90 - 10) / scriptCfg.U_bat)
      ∧ (0 < scriptCfg.U_bat → ((simStep scriptCfg 10 90 7000).Iout < 0 ↔ (10 : ℚ) < 90)) :=
  deficit_branch_update scriptCfg 10 90 7000
    (by norm_num [scriptCfg, Cmaxmin, Cmax])
    (by norm_num [scriptCfg, Config.Pcharge, U_bat, I_charge, Cmax, charging_speed])

/-- Claim C5: with the script constants (capacity 200 mAh giving 12000
mAmin, voltage 37 / 10, nominal charge current 40), any non-saturated step
satisfying the surplus condition increments the running charge by exactly
40 times (90 / 360 times 1 / 60), the period over 360 times the angular
step, and records the current 40. -/
theorem full_rate_charging_step (ps pt c : ℚ) (hc : ¬ c > scriptCfg.Cmaxmin)
    (hs : ps > pt + scriptCfg.Pcharge) :
    (simStep scriptCfg ps pt c).Cnew = c + 40 * (90 / 360 * (1 / 60))
      ∧ (simStep scriptCfg ps pt c).Iout = 40 := by
  have hP : scriptCfg.Pcharge = 148 := by
    norm_num [scriptCfg, Config.Pcharge, U_bat, I_charge, Cmax, charging_speed]
  have hU : scriptCfg.U_bat = 37 / 10 := by norm_num [scriptCfg, U_bat]
  have hI : scriptCfg.I_charge = 40 := by
    norm_num [scriptCfg, I_charge, Cmax, charging_speed]
  have hfull : (ps - pt) / scriptCfg.U_bat ≥ scriptCfg.I_charge := by
    rw [hU, hI, ge_iff_le, le_div_iff₀ (by norm_num : (0 : ℚ) < 37 / 10)]
    rw [hP] at hs
    linarith
  have hstep : simStep scriptCfg ps pt c
      = ⟨c + scriptCfg.I_charge * (scriptCfg.T / 360 * scriptCfg.step),
         scriptCfg.I_charge,
         c + scriptCfg.I_charge * (scriptCfg.T / 360 * scriptCfg.step),
         some ((c + scriptCfg.I_charge * (scriptCfg.T / 360 * scriptCfg.step))
            / scriptCfg.Cmaxmin * 100)⟩ := by
    simp only [simStep]
    rw [if_neg hc, if_pos hs, if_pos hfull]
  rw [hstep]
  refine ⟨?_, hI⟩
  show c + scriptCfg.I_charge * (scriptCfg.T / 360 * scriptCfg.step)
      = c + 40 * (90 / 360 * (1 / 60))
  norm_num [scriptCfg, I_charge, Cmax, charging_speed, T, step]

/-- Witness for claim C5 at a concrete input. -/
theorem full_rate_charging_step_witness :
    (simStep scriptCfg 400 0 6000).Cnew = 6000 + 40 * (90 / 360 * (1 / 60))
      ∧ (simStep scriptCfg 400 0 6000).Iout = 40 :=
  full_rate_charging_step 400 0 6000
    (by norm_num [scriptCfg, Cmaxmin, Cmax])
    (by norm_num [scriptCfg, Config.Pcharge, U_bat, I_charge, Cmax, charging_speed])

/-- Claim C8: in the surplus branch the available surplus current strictly
exceeds the nominal charge current whenever the battery voltage is
positive, since the surplus power strictly exceeds the charging power
voltage times nominal current; hence the reduced-rate sub-branch of lines
153-156 is unreachable and the recorded current is exactly the nominal
charge current. -/
theorem reduced_rate_unreachable (cfg : Config) (ps pt c : ℚ)
    (hU : 0 < cfg.U_bat) (hc : ¬ c > cfg.Cmaxmin)
    (hs : ps > pt + cfg.Pcharge) :
    cfg.I_charge < (ps - pt) / cfg.U_bat
      ∧ (simStep cfg ps pt c).Iout = cfg.I_charge := by
  have hs' : pt + cfg.U_bat * cfg.I_charge < ps := hs
  have hlt : cfg.I_charge < (ps - pt) / cfg.U_bat := by
    rw [lt_div_iff₀ hU, mul_comm]
    linarith
  refine ⟨hlt, ?_⟩
  have hstep : simStep cfg ps pt c
      = ⟨c + cfg.I_charge * (cfg.T / 360 * cfg.step), cfg.I_charge,
         c + cfg.I_charge * (cfg.T / 360 * cfg.step),
         some ((c + cfg.I_charge * (cfg.T / 360 * cfg.step))
            / cfg.Cmaxmin * 100)⟩ := by
    simp only [simStep]
    rw [if_neg hc, if_pos hs, if_pos (le_of_lt hlt)]
  rw [hstep]

/-- Witness for claim C8 at a concrete input. -/
theorem reduced_rate_unreachable_witness :
    scriptCfg.I_charge < (500 - 20) / scriptCfg.U_bat
      ∧ (simStep scriptCfg 500 20 7000).Iout = scriptCfg.I_charge :=
  reduced_rate_unreachable scriptCfg 500 20 7000
    (by norm_num [scriptCfg, U_bat])
    (by norm_num [scriptCfg, Cmaxmin, Cmax])
    (by norm_num [scriptCfg, Config.Pcharge, U_bat, I_charge, Cmax, charging_speed])

/-- One step keeps the running charge, and the recorded charge, at or below
capacity plus one nominal step increment, for positive voltage, nonnegative
nominal current and nonnegative step duration. -/
lemma simStep_le_bound (cfg : Config) (ps pt c : ℚ) (hU : 0 < cfg.U_bat)
    (hI : 0 ≤ cfg.I_charge) (hdt : 0 ≤ cfg.T / 360 * cfg.step)
    (hc : c ≤ cfg.Cmaxmin + cfg.I_charge * (cfg.T / 360 * cfg.step)) :
    (simStep cfg ps pt c).Cnew
        ≤ cfg.Cmaxmin + cfg.I_charge * (cfg.T / 360 * cfg.step)
      ∧ (simStep cfg ps pt c).Cout
        ≤ cfg.Cmaxmin + cfg.I_charge * (cfg.T / 360 * cfg.step) := by
  simp only [simStep]
  split_ifs with h1 h2 h3
  · exact ⟨hc, le_add_of_nonneg_right (mul_nonneg hI hdt)⟩
  · have hcm : c ≤ cfg.Cmaxmin := not_lt.mp h1
    have hstep : c + cfg.I_charge * (cfg.T / 360 * cfg.step)
        ≤ cfg.Cmaxmin + cfg.I_charge * (cfg.T / 360 * cfg.step) := by linarith
    exact ⟨hstep, hstep⟩
  · have hcm : c ≤ cfg.Cmaxmin := not_lt.mp h1
    have hr : (ps - pt) / cfg.U_bat ≤ cfg.I_charge := le_of_lt (not_le.mp h3)
    have hmul : (ps - pt) / cfg.U_bat * (cfg.T / 360 * cfg.step)
        ≤ cfg.I_charge * (cfg.T / 360 * cfg.step) :=
      mul_le_mul_of_nonneg_right hr hdt
    have hstep : c + (ps - pt) / cfg.U_bat * (cfg.T / 360 * cfg.step)
        ≤ cfg.Cmaxmin + cfg.I_charge * (cfg.T / 360 * cfg.step) := by linarith
    exact ⟨hstep, hstep⟩
  · have hcm : c ≤ cfg.Cmaxmin := not_lt.mp h1
    have hps : ps ≤ pt + cfg.U_bat * cfg.I_charge := not_lt.mp h2
    have h4 : (ps - pt) / cfg.U_bat ≤ cfg.I_charge := by
      rw [div_le_iff₀ hU, mul_comm]
      linarith
    have hmul : (ps - pt) / cfg.U_bat * (cfg.T / 360 * cfg.step)
        ≤ cfg.I_charge * (cfg.T / 360 * cfg.step) :=
      mul_le_mul_of_nonneg_right h4 hdt
    have heq : c - (pt - ps) / cfg.U_bat * (cfg.T / 360 * cfg.step)
        = c + (ps - pt) / cfg.U_bat * (cfg.T / 360 * cfg.step) := by
      ring
    have hstep : c - (pt - ps) / cfg.U_bat * (cfg.T / 360 * cfg.step)
        ≤ cfg.Cmaxmin + cfg.I_charge * (cfg.T / 360 * cfg.step) := by
      rw [heq]
      linarith
    exact ⟨hstep, hstep⟩

/-- Claim C3, counterexample: the recorded charge is not kept inside the
interval from zero to capacity.  Starting at charge zero, one deficit step
records the negative charge minus one twenty-fourth; starting at charge
12000 (the capacity exactly), one full-rate charging step records 12000
plus one sixth, strictly above the capacity. -/
theorem charge_range_cex :
    (simRun scriptCfg 0 [(0, 37)]).C = [-(1 / 24)]
      ∧ (-(1 / 24) : ℚ) < 0
      ∧ (simRun scriptCfg 12000 [(517, 0)]).C = [12000 + 1 / 6]
      ∧ scriptCfg.Cmaxmin < 12000 + 1 / 6 := by
  refine ⟨?_, by norm_num, ?_, by norm_num [scriptCfg, Cmaxmin, Cmax]⟩ <;>
    norm_num [simRun, simStep, scriptCfg, Config.Pcharge, Cmaxmin, Cmax, I_charge,
      charging_speed, U_bat, T, step]

/-- Claim C3, amended: for positive voltage, nonnegative nominal current
and nonnegative step duration, if the initial charge is at most the
capacity plus one nominal step increment then every recorded charge stays
at most the capacity plus one nominal step increment (the one-step
overshoot the code allows); there is no lower bound, as the counterexample
shows. -/
theorem recorded_charge_upper_bound (cfg : Config) (inputs : List (ℚ × ℚ))
    (c x : ℚ) (hU : 0 < cfg.U_bat) (hI : 0 ≤ cfg.I_charge)
    (hdt : 0 ≤ cfg.T / 360 * cfg.step)
    (hc : c ≤ cfg.Cmaxmin + cfg.I_charge * (cfg.T / 360 * cfg.step))
    (hx : x ∈ (simRun cfg c inputs).C) :
    x ≤ cfg.Cmaxmin + cfg.I_charge * (cfg.T / 360 * cfg.step) := by
  induction inputs generalizing c with
  | nil => simp [simRun] at hx
  | cons hd tl ih =>
    obtain ⟨ps, pt⟩ := hd
    have hb := simStep_le_bound cfg ps pt c hU hI hdt hc
    simp only [simRun] at hx
    rcases List.mem_cons.mp hx with h | h
    · exact h.trans_le hb.2
    · exact ih _ hb.1 h

/-- Witness for the amended claim C3 at a concrete input. -/
theorem recorded_charge_upper_bound_witness :
    (6000 + 1 / 6 : ℚ)
      ≤ scriptCfg.Cmaxmin + scriptCfg.I_charge * (scriptCfg.T / 360 * scriptCfg.step) :=
  recorded_charge_upper_bound scriptCfg [(400, 0)] 6000 (6000 + 1 / 6)
    (by norm_num [scriptCfg, U_bat])
    (by norm_num [scriptCfg, I_charge, Cmax, charging_speed])
    (by norm_num [scriptCfg, T, step])
    (by norm_num [scriptCfg, Cmaxmin, Cmax, I_charge, charging_speed, T, step])
    (by norm_num [simRun, simStep, scriptCfg, Config.Pcharge, Cmaxmin, Cmax,
      I_charge, charging_speed, U_bat, T, step])

/-- Claim C6, counterexample: nothing rejects a non-positive capacity; the
constants are plain assignments with no checks, and the loop runs on a
negative capacity, producing output normally (here even recording the
negative capacity as the charge), so the simulation loop does encounter
such invalid values. -/
theorem no_construction_validation_cex :
    (simRun ⟨-5, 40, 37 / 10, 90, 1 / 60⟩ 0 [(0, 37), (200, 0)]).I.length = 2
      ∧ (simRun ⟨-5, 40, 37 / 10, 90, 1 / 60⟩ 0 [(0, 37), (200, 0)]).C
        = [-5, -5] := by
  norm_num [simRun, simStep, Config.Pcharge]

/-- Claim C6, amended: the script performs no configuration validation at
all; a configuration with non-positive capacity is not rejected and the
loop runs on it unconditionally, producing one entry of `I` and of `C` per
step of the sweep. -/
theorem invalid_capacity_loop_runs (cfg : Config) (c : ℚ)
    (inputs : List (ℚ × ℚ)) (_h : cfg.Cmaxmin ≤ 0) :
    (simRun cfg c inputs).I.length = inputs.length
      ∧ (simRun cfg c inputs).C.length = inputs.length := by
  induction inputs generalizing c with
  | nil => simp [simRun]
  | cons hd tl ih =>
    obtain ⟨ps, pt⟩ := hd
    simp only [simRun, List.length_cons]
    exact ⟨by rw [(ih _).1], by rw [(ih _).2]⟩

/-- Witness for the amended claim C6 at a concrete input. -/
theorem invalid_capacity_loop_runs_witness :
    (simRun ⟨-7, 40, 37 / 10, 90, 1 / 60⟩ 6000 [(300, 50)]).I.length = 1
      ∧ (simRun ⟨-7, 40, 37 / 10, 90, 1 / 60⟩ 6000 [(300, 50)]).C.length = 1 :=
  invalid_capacity_loop_runs ⟨-7, 40, 37 / 10, 90, 1 / 60⟩ 6000 [(300, 50)]
    (by norm_num)
